import Mathlib

/-!
Verification of the MCSL2_API concurrency and dispatch core: a shallow
embedding of `MCSL2_API/models.py`, `MCSL2_API/events/bus.py`,
`MCSL2_API/core.py` and `utils/threading.py`, together with theorems about
the event bus (priority ordering, cancellation, exception isolation), the
hook installer (idempotence), the bridge registry (last-write-wins) and the
UI-thread marshaler.
-/

namespace MCSL2

/-- Result of a Python call: a normal return value or a raised exception. -/
inductive PyResult (α : Type) where
  | ok (a : α)
  | raised (err : String)
deriving DecidableEq, Repr

/-- Functorial action on the normal-return component; a raised exception
propagates unchanged. -/
def PyResult.map {α β : Type} (f : α → β) : PyResult α → PyResult β
  | .ok a => .ok (f a)
  | .raised e => .raised e

/-- Sequencing of Python calls: a raised exception in the first call
propagates and the continuation never runs. -/
def PyResult.bind {α β : Type} : PyResult α → (α → PyResult β) → PyResult β
  | .ok a, f => f a
  | .raised e, _ => .raised e

/-! ## Data model (`models.py`, fallback branch without pydantic)

`LogEvent` and `ServerExitEvent` are declared as
`@dataclass(frozen=True, slots=True)` with exactly the fields listed below
(models.py lines 90-100).  We embed the attribute-level semantics of such a
class: `frozen=True` makes every attribute assignment raise
`FrozenInstanceError`, and `slots=True` means no attribute outside the
declared fields exists on an instance.  (The pydantic branch of models.py
likewise rejects assignment to the undeclared attribute `cancelled`.) -/

/-- Attribute-level description of a Python dataclass declaration. -/
structure DataclassDesc where
  fields : List String
  frozen : Bool
  slots : Bool
deriving DecidableEq, Repr

/-- The declaration of `LogEvent` in models.py: fields
`server_name, content, ts`, `frozen=True`, `slots=True`. -/
def logEventDesc : DataclassDesc :=
  { fields := ["server_name", "content", "ts"], frozen := true, slots := true }

/-- The declaration of `ServerExitEvent` in models.py: fields
`server_name, exit_code, ts`, `frozen=True`, `slots=True`. -/
def serverExitEventDesc : DataclassDesc :=
  { fields := ["server_name", "exit_code", "ts"], frozen := true, slots := true }

/-- Python `setattr(instance, attr, value)` against a dataclass declaration:
a frozen dataclass raises `FrozenInstanceError` for every attribute; an
unfrozen one accepts declared fields, and undeclared attributes only when
the class has a `__dict__` (no `slots`). -/
def dcSetattr (d : DataclassDesc) (attr : String) : PyResult Unit :=
  if d.frozen then .raised "FrozenInstanceError"
  else if attr ∈ d.fields || !d.slots then .ok ()
  else .raised "AttributeError"

/-- Python `getattr(event, "cancelled", False)` as used by `EventBus.emit`
(bus.py line 117): if the instance has a `cancelled` attribute its value is
read, otherwise the default `False` is returned.  With `slots=True` an
instance has exactly the declared fields. -/
def getattrCancelled (d : DataclassDesc) (valueIfPresent : Bool) : Bool :=
  if "cancelled" ∈ d.fields then valueIfPresent else false

/-- The `Cancellable` mix-in of bus.py (lines 233-238): one mutable boolean
initialised to `False`. -/
structure Cancellable where
  cancelled : Bool
deriving DecidableEq, Repr

/-- `Cancellable.__init__`: `self.cancelled = False`. -/
def Cancellable.init : Cancellable := { cancelled := false }

/-- `Cancellable.cancel`: `self.cancelled = True`. -/
def Cancellable.cancel (c : Cancellable) : Cancellable := { c with cancelled := true }

/-! ## EventBus (`events/bus.py`)

A handler callback is identified by a `Nat` id.  Subscription order matters
(`EventBus.on` appends under the lock), so the dispatch machinery works on
index-tagged handler references: the `Nat` component is the position of the
handler in its type-keyed list, i.e. its subscription order. -/

/-- The `_HandlerRef` dataclass of bus.py (lines 39-43). -/
structure HandlerRef where
  fn : Nat
  background : Bool
  priority : Int
deriving DecidableEq, Repr

/-- An index-tagged handler reference: subscription index paired with the ref. -/
abbrev IRef := Nat × HandlerRef

/-- Total preorder realised by `refs.sort(key=lambda r: r.priority, reverse=True)`
(bus.py line 115): Python sort is stable, so the sorted order is exactly
priority descending with the original (subscription) index as tie-break. -/
def handlerLE (a b : IRef) : Prop :=
  b.2.priority < a.2.priority ∨ (a.2.priority = b.2.priority ∧ a.1 ≤ b.1)

instance : DecidableRel handlerLE := fun a b =>
  inferInstanceAs (Decidable
    (b.2.priority < a.2.priority ∨ (a.2.priority = b.2.priority ∧ a.1 ≤ b.1)))

instance : IsTotal IRef handlerLE := by
  constructor
  intro a b
  unfold handlerLE
  rcases lt_trichotomy a.2.priority b.2.priority with h | h | h
  · exact Or.inr (Or.inl h)
  · rcases Nat.le_total a.1 b.1 with h2 | h2
    · exact Or.inl (Or.inr ⟨h, h2⟩)
    · exact Or.inr (Or.inr ⟨h.symm, h2⟩)
  · exact Or.inl (Or.inl h)

instance : IsTrans IRef handlerLE := by
  constructor
  intro a b c hab hbc
  unfold handlerLE at *
  rcases hab with h1 | ⟨h1, h1i⟩ <;> rcases hbc with h2 | ⟨h2, h2i⟩
  · exact Or.inl (lt_trans h2 h1)
  · exact Or.inl (by omega)
  · exact Or.inl (by omega)
  · exact Or.inr ⟨by omega, by omega⟩

/-- The sort performed by `EventBus.emit` on the snapshot of the handler
list, on index-tagged refs. -/
def pySortDesc (l : List IRef) : List IRef :=
  List.insertionSort handlerLE l

/-- Semantics of the subscribed callbacks, as far as dispatch can observe
them: an inline callback invoked with the current value of the cancelled
flag leaves a new flag value (it may mutate the event) and may raise. -/
structure HandlerSem where
  newCancelled : Nat → Bool → Bool
  raises : Nat → Bool → Bool

/-- Outcome of invoking callback `h` while the cancelled flag is `c`. -/
def invokeHandler (B : HandlerSem) (h : Nat) (c : Bool) : PyResult Unit :=
  if B.raises h c then .raised "handler exception" else .ok ()

/-- `EventBus._safe_call` (bus.py lines 124-133): the callback runs inside
`try/except Exception`, logging is itself guarded, so every exception is
swallowed and the call always returns normally. -/
def safe_call (r : PyResult Unit) : PyResult Unit :=
  match r with
  | .ok _ => .ok ()
  | .raised _ => .ok ()

/-- One observable dispatch step of `emit`: a handler submitted to the
worker pool (`core.threading.submit`) or invoked inline on the emitting
thread. -/
inductive Action where
  | submitted (r : IRef)
  | inline (r : IRef)
deriving DecidableEq, Repr

/-- The action `emit` performs for a non-skipped handler. -/
def actOf (r : IRef) : Action :=
  if r.2.background then .submitted r else .inline r

/-- The `for ref in refs` loop of `EventBus.emit` (bus.py lines 116-122)
over the sorted snapshot; `c` is the current value of
`getattr(event, "cancelled", False)`.  A background handler is submitted to
the pool (it runs outside this emit call, so it cannot change `c`
synchronously); an inline handler is invoked through `_safe_call` and may
mutate the flag.  The `.raised` branch records what would happen if an
inline invocation propagated an exception: dispatch would abort there. -/
def emitLoop (B : HandlerSem) : List IRef → Bool → PyResult (List Action)
  | [], _ => .ok []
  | r :: rs, c =>
    if c then .ok []
    else if r.2.background then
      (emitLoop B rs c).map (fun as => .submitted r :: as)
    else
      (safe_call (invokeHandler B r.2.fn c)).bind (fun _ =>
        (emitLoop B rs (B.newCancelled r.2.fn c)).map (fun as => .inline r :: as))

/-- `self._handlers.get(type(event), [])`: the handler table is keyed by the
event type (modelled as a `String` key). -/
def lookupHandlers (table : List (String × List HandlerRef)) (ty : String) :
    List HandlerRef :=
  match table.find? (fun p => p.1 == ty) with
  | some p => p.2
  | none => []

/-- `EventBus.on` (bus.py lines 57-79): appends the new `_HandlerRef` to the
type-keyed list (defaultdict), so a later subscription gets a larger index. -/
def busOn (table : List (String × List HandlerRef)) (ty : String) (ref : HandlerRef) :
    List (String × List HandlerRef) :=
  match table with
  | [] => [(ty, [ref])]
  | (t, l) :: rest =>
    if t == ty then (t, l ++ [ref]) :: rest else (t, l) :: busOn rest ty ref

/-- `EventBus.emit` (bus.py lines 103-122): snapshot the handler list of
`type(event)` under the lock, sort it stably by priority descending, then
run the dispatch loop with the initial cancelled flag `c0` of the event. -/
def emit (table : List (String × List HandlerRef)) (ty : String) (B : HandlerSem)
    (c0 : Bool) : PyResult (List Action) :=
  emitLoop B (pySortDesc (lookupHandlers table ty).enum) c0

/-- Position-based happens-before on the dispatch trace. -/
def actBefore (a b : Action) (as : List Action) : Prop :=
  ∃ p q : Fin as.length, p < q ∧ as.get p = a ∧ as.get q = b

/-! ## Bridge registry (`APICore._bridges`, core.py lines 126-132)

`register_bridge` does `self._bridges[str(server_name)] = bridge` and
`get_bridge` does `self._bridges.get(str(server_name))`, both under
`_bridges_lock`.  Bridges are identified by a `Nat` (the Python object
identity).  The dict is embedded as an association list with Python dict
update semantics (replace in place, or append a fresh key). -/

/-- Python `d[k] = v` on a string-keyed dict. -/
def dictSet : List (String × Nat) → String → Nat → List (String × Nat)
  | [], k, v => [(k, v)]
  | (k2, v2) :: rest, k, v =>
    if k2 == k then (k, v) :: rest else (k2, v2) :: dictSet rest k v

/-- Python `d.get(k)` on a string-keyed dict. -/
def dictGet (l : List (String × Nat)) (k : String) : Option Nat :=
  (l.find? (fun p => p.1 == k)).map (fun p => p.2)

/-- `APICore.register_bridge` (core.py lines 126-128). -/
def register_bridge (bridges : List (String × Nat)) (server_name : String) (bridge : Nat) :
    List (String × Nat) :=
  dictSet bridges server_name bridge

/-- `APICore.get_bridge` (core.py lines 130-132). -/
def get_bridge (bridges : List (String × Nat)) (server_name : String) : Option Nat :=
  dictGet bridges server_name

/-- Every mutating operation the source code defines on `APICore._bridges`.
The whole repository writes to the registry only through
`APICore.register_bridge` (called directly or from `EventBus.hook_bridge`);
`get_bridge` is a pure query and no deletion operation exists anywhere. -/
inductive RegistryOp where
  | register (server_name : String) (bridge : Nat)
deriving DecidableEq, Repr

/-- State transformer of one registry operation. -/
def applyRegistryOp (op : RegistryOp) (l : List (String × Nat)) : List (String × Nat) :=
  match op with
  | .register n b => register_bridge l n b

/-- State transformer of a sequence of registry operations. -/
def applyRegistryOps (ops : List RegistryOp) (l : List (String × Nat)) :
    List (String × Nat) :=
  match ops with
  | [] => l
  | op :: rest => applyRegistryOps rest (applyRegistryOp op l)

/-! ## `EventBus.hook_bridge` (bus.py lines 135-175)

The observable state: the `_bridge_hooks` key set, a log of the performed
signal-attachment blocks (one entry appended each time the
`serverLogOutput`/`serverClosed` connection block for a key is executed),
and the `APICore` bridge registry the call finishes by writing to.  A
bridge handle is identified by its Python object identity (`id(bridge)`),
a `Nat`. -/

structure HookState where
  bridgeHooks : List (String × Nat)
  attachLog : List (String × Nat)
  registry : List (String × Nat)
deriving DecidableEq, Repr

/-- `EventBus.hook_bridge`: compute `key = (server_name, id(bridge))`; under
the lock, return immediately when `_bridge_hooks.get(key)` is truthy,
otherwise mark the key; then connect the two signals (each `connect` is in
its own `try/except`) and register the bridge with `APICore`. -/
def hook_bridge (σ : HookState) (server_name : String) (ident : Nat) : HookState :=
  if (server_name, ident) ∈ σ.bridgeHooks then σ
  else
    { bridgeHooks := (server_name, ident) :: σ.bridgeHooks
      attachLog := σ.attachLog ++ [(server_name, ident)]
      registry := dictSet σ.registry server_name ident }

/-- State transformer of a sequence of `hook_bridge` calls. -/
def hookSeq (calls : List (String × Nat)) (σ : HookState) : HookState :=
  match calls with
  | [] => σ
  | (n, i) :: rest => hookSeq rest (hook_bridge σ n i)

/-- Number of times `key` occurs in an attachment log. -/
def keyCount (key : String × Nat) (l : List (String × Nat)) : Nat :=
  (l.filter (fun x => x == key)).length

/-! ## `EventBus.install_hooks` (bus.py lines 177-230)

The host side (`MCSL2Lib.ServerControllers.processCreator`) is outside this
repository; `install_hooks` observes it only through: whether the module
imports, whether `ServerLauncher.start` exists, whether the current `start`
function object carries the `__mcsl2_api_hooked__` marker, and the
`setattr` that replaces `start` by a marker-carrying wrapper around it.
`wrapDepth` counts how many wrappers have been layered over the original
`start`, which is exactly what "wrapped at most once" is about. -/

/-- Attribute state of the function object stored at `ServerLauncher.start`. -/
structure FuncObj where
  hookedMarker : Bool
  wrapDepth : Nat
deriving DecidableEq, Repr

/-- Host state visible to `install_hooks`: `importable` is whether the
`processCreator` import succeeds; `start` is `ServerLauncher.start`
(`none` when `ServerLauncher` or its `start` attribute is absent). -/
structure Host where
  importable : Bool
  start : Option FuncObj
deriving DecidableEq, Repr

/-- The `__mcsl2_api_hooked__` marker of the current factory, `false` when
the factory is absent. -/
def hostMarker (h : Host) : Bool :=
  match h.start with
  | some f => f.hookedMarker
  | none => false

/-- Number of wrappers layered over the original factory. -/
def wrapCount (h : Host) : Nat :=
  match h.start with
  | some f => f.wrapDepth
  | none => 0

/-- `EventBus.install_hooks`: `hooksInstalled` is the calling instance flag
`self._hooks_installed`.  Early returns: flag already set; import failure;
`ServerLauncher`/`start` absent.  If the current `start` already carries the
marker, only the instance flag is set.  Otherwise `start` is replaced by a
wrapper carrying the marker and the flag is set. -/
def install_hooks (hooksInstalled : Bool) (h : Host) : Bool × Host :=
  if hooksInstalled then (hooksInstalled, h)
  else if !h.importable then (hooksInstalled, h)
  else
    match h.start with
    | none => (hooksInstalled, h)
    | some f =>
      if f.hookedMarker then (true, h)
      else (true, { h with start := some { hookedMarker := true, wrapDepth := f.wrapDepth + 1 } })

/-- Host evolution under a sequence of `install_hooks` calls; each call may
come from an independent `EventBus` instance, whose `_hooks_installed` flag
at call time is the corresponding list entry. -/
def installSeq (calls : List Bool) (h : Host) : Host :=
  match calls with
  | [] => h
  | b :: rest => installSeq rest (install_hooks b h).2

/-! ## UI-thread marshaler (`utils/threading.py`)

State visible to the functions: whether `QCoreApplication.instance()` is
non-`None` and whether the current thread is the application thread.  The
callable handed to `run_on_ui_thread` is represented by its outcome
`fv : PyResult Nat` (a return value or a raised exception); the outcome
classifies which code path returned and what it delivered. -/

structure QtState where
  appExists : Bool
  currentIsAppThread : Bool
deriving DecidableEq, Repr

/-- `is_ui_thread` (threading.py lines 81-87): when no application object
exists the function returns `True`; otherwise it compares the current
thread with the application thread. -/
def is_ui_thread (q : QtState) : Bool :=
  if !q.appExists then true else q.currentIsAppThread

/-- `_get_invoker` (threading.py lines 65-78): raises when no application
object exists, otherwise yields the lazily created main-thread invoker. -/
def get_invoker (q : QtState) : PyResult Unit :=
  if !q.appExists then .raised "Qt application is not initialized yet." else .ok ()

/-- What a `run_on_ui_thread` call delivers to its caller. -/
inductive Outcome where
  | direct (v : Nat)
  | waited (v : Nat)
  | future (pending : PyResult Nat)
deriving DecidableEq, Repr

/-- `run_on_ui_thread` (threading.py lines 98-123).  On the UI thread (which
includes the no-application case, by `is_ui_thread`) the callable runs
immediately: its value is returned directly as `.direct` and an exception
propagates — no `Future` is created.  Otherwise the invoker is fetched
(raising if the application vanished), the thunk is queued, and either
`fut.result()` is awaited (`.waited`, re-raising the callable exception) or
the pending future is returned (`.future`, with the callable outcome
captured inside it). -/
def run_on_ui_thread (q : QtState) (wait : Bool) (fv : PyResult Nat) : PyResult Outcome :=
  if is_ui_thread q then fv.map Outcome.direct
  else
    (get_invoker q).bind (fun _ =>
      if wait then fv.map Outcome.waited else .ok (.future fv))

/-! ## Concrete subscription scenarios from the spec (section 8)

Two inline handlers on `LogEvent`, priorities 10 and 1 (subscription order
h1 then h2), and one inline handler on `ServerExitEvent`. -/

/-- Handler 1: inline, priority 10. -/
def demoH1 : HandlerRef := { fn := 1, background := false, priority := 10 }

/-- Handler 2: inline, priority 1. -/
def demoH2 : HandlerRef := { fn := 2, background := false, priority := 1 }

/-- Handler 3: inline, priority 0, subscribed to the other event type. -/
def demoH3 : HandlerRef := { fn := 3, background := false, priority := 0 }

/-- Handler table: h1 and h2 on `LogEvent`, h3 on `ServerExitEvent`. -/
def demoTable : List (String × List HandlerRef) :=
  [("LogEvent", [demoH1, demoH2]), ("ServerExitEvent", [demoH3])]

/-- Callback semantics in which handler 1 sets `event.cancelled = True` and
nobody raises. -/
def demoCancelSem : HandlerSem :=
  { newCancelled := fun h c => if h == 1 then true else c
    raises := fun _ _ => false }

/-- Callback semantics in which nobody cancels and nobody raises. -/
def demoPlainSem : HandlerSem :=
  { newCancelled := fun _ c => c
    raises := fun _ _ => false }

/-- Callback semantics in which handler 1 raises and nobody cancels. -/
def demoRaiseSem : HandlerSem :=
  { newCancelled := fun _ c => c
    raises := fun h _ => h == 1 }

/-! ## Supporting lemmas -/

/-- `_safe_call` always returns normally, whatever the callback did. -/
theorem safe_call_ok (r : PyResult Unit) : safe_call r = .ok () := by
  cases r <;> rfl

/-- Once the cancelled flag is observed true, the dispatch loop returns with
no further action. -/
theorem emitLoop_cancelled (B : HandlerSem) (l : List IRef) :
    emitLoop B l true = .ok [] := by
  cases l <;> simp [emitLoop]

/-- Unfolding the loop at a background handler. -/
theorem emitLoop_cons_bg (B : HandlerSem) (r : IRef) (rs : List IRef)
    (hb : r.2.background = true) :
    emitLoop B (r :: rs) false =
      (emitLoop B rs false).map (fun as => Action.submitted r :: as) := by
  simp [emitLoop, hb]

/-- Unfolding the loop at an inline handler: `_safe_call` swallows any
exception, so the loop always continues with the possibly mutated flag. -/
theorem emitLoop_cons_inline (B : HandlerSem) (r : IRef) (rs : List IRef)
    (hb : r.2.background = false) :
    emitLoop B (r :: rs) false =
      (emitLoop B rs (B.newCancelled r.2.fn false)).map
        (fun as => Action.inline r :: as) := by
  simp [emitLoop, hb, safe_call_ok, PyResult.bind]

/-- The dispatch loop never propagates an exception. -/
theorem emitLoop_no_raise (B : HandlerSem) :
    ∀ (l : List IRef) (c : Bool), ∃ as, emitLoop B l c = .ok as := by
  intro l
  induction l with
  | nil => intro c; exact ⟨[], rfl⟩
  | cons r rs ih =>
    intro c
    cases c with
    | true => exact ⟨[], emitLoop_cancelled B (r :: rs)⟩
    | false =>
      by_cases hb : r.2.background = true
      · obtain ⟨as, has⟩ := ih false
        exact ⟨Action.submitted r :: as, by rw [emitLoop_cons_bg B r rs hb, has]; rfl⟩
      · rw [Bool.not_eq_true] at hb
        obtain ⟨as, has⟩ := ih (B.newCancelled r.2.fn false)
        exact ⟨Action.inline r :: as, by rw [emitLoop_cons_inline B r rs hb, has]; rfl⟩

/-- The trace of the dispatch loop is the action image of a prefix of the
sorted snapshot. -/
theorem emitLoop_split (B : HandlerSem) :
    ∀ (l : List IRef) (c : Bool) (as : List Action),
      emitLoop B l c = .ok as → ∃ l1 l2, l = l1 ++ l2 ∧ as = l1.map actOf := by
  intro l
  induction l with
  | nil =>
    intro c as h
    simp only [emitLoop, PyResult.ok.injEq] at h
    exact ⟨[], [], rfl, h.symm⟩
  | cons r rs ih =>
    intro c as h
    cases c with
    | true =>
      rw [emitLoop_cancelled] at h
      injection h with h2
      exact ⟨[], r :: rs, rfl, by rw [← h2]; rfl⟩
    | false =>
      by_cases hb : r.2.background = true
      · rw [emitLoop_cons_bg B r rs hb] at h
        cases hE : emitLoop B rs false with
        | raised e => rw [hE] at h; simp [PyResult.map] at h
        | ok as2 =>
          rw [hE] at h
          simp only [PyResult.map, PyResult.ok.injEq] at h
          obtain ⟨l1, l2, hsp, hmap⟩ := ih false as2 hE
          refine ⟨r :: l1, l2, by rw [hsp]; rfl, ?_⟩
          rw [← h]
          simp [actOf, hb, hmap]
      · rw [Bool.not_eq_true] at hb
        rw [emitLoop_cons_inline B r rs hb] at h
        cases hE : emitLoop B rs (B.newCancelled r.2.fn false) with
        | raised e => rw [hE] at h; simp [PyResult.map] at h
        | ok as2 =>
          rw [hE] at h
          simp only [PyResult.map, PyResult.ok.injEq] at h
          obtain ⟨l1, l2, hsp, hmap⟩ := ih (B.newCancelled r.2.fn false) as2 hE
          refine ⟨r :: l1, l2, by rw [hsp]; rfl, ?_⟩
          rw [← h]
          simp [actOf, hb, hmap]

/-- The trace does not depend on which handlers raise: raising is fully
absorbed by `_safe_call`. -/
theorem emitLoop_raise_independent (B : HandlerSem) :
    ∀ (l : List IRef) (c : Bool),
      emitLoop B l c = emitLoop ⟨B.newCancelled, fun _ _ => false⟩ l c := by
  intro l
  induction l with
  | nil => intro c; rfl
  | cons r rs ih =>
    intro c
    cases c with
    | true => rw [emitLoop_cancelled, emitLoop_cancelled]
    | false =>
      by_cases hb : r.2.background = true
      · rw [emitLoop_cons_bg B r rs hb, emitLoop_cons_bg _ r rs hb, ih]
      · rw [Bool.not_eq_true] at hb
        rw [emitLoop_cons_inline B r rs hb, emitLoop_cons_inline _ r rs hb, ih]

/-- Unfolding of the sort order on explicit index/ref pairs. -/
theorem handlerLE_mk (i j : Nat) (x y : HandlerRef) :
    handlerLE (i, x) (j, y) ↔
      (y.priority < x.priority ∨ (x.priority = y.priority ∧ i ≤ j)) :=
  Iff.rfl

/-- The action tag determines the handler reference. -/
theorem actOf_inj {x y : IRef} (h : actOf x = actOf y) : x = y := by
  unfold actOf at h
  by_cases hx : x.2.background = true <;> by_cases hy : y.2.background = true <;>
    simp [hx, hy] at h <;> exact h

/-- Position of two related elements when one is in the prefix of a
pairwise-ordered append. -/
theorem pairwise_before {α : Type} {le : α → α → Prop} {l1 l2 : List α} {a b : α}
    (hpair : List.Pairwise le (l1 ++ l2))
    (ha : a ∈ l1 ++ l2) (hb : b ∈ l1)
    (hab : le a b) (hba : ¬ le b a) :
    ∃ p q : Fin l1.length, p < q ∧ l1.get p = a ∧ l1.get q = b := by
  rw [List.pairwise_append] at hpair
  obtain ⟨hp1, _, hcross⟩ := hpair
  have ha1 : a ∈ l1 := by
    rcases List.mem_append.mp ha with h | h
    · exact h
    · exact absurd (hcross b hb a h) hba
  obtain ⟨p, hp⟩ := List.mem_iff_get.mp ha1
  obtain ⟨q, hq⟩ := List.mem_iff_get.mp hb
  refine ⟨p, q, ?_, hp, hq⟩
  rcases lt_trichotomy p q with h | h | h
  · exact h
  · exfalso
    have heq : a = b := by rw [← hp, ← hq, h]
    rw [heq] at hab hba
    exact hba hab
  · exfalso
    apply hba
    have := (List.pairwise_iff_get.mp hp1) q p h
    rwa [hp, hq] at this

/-- Dict update followed by lookup of the same key. -/
theorem dictGet_dictSet_same (l : List (String × Nat)) (k : String) (v : Nat) :
    dictGet (dictSet l k v) k = some v := by
  induction l with
  | nil => simp [dictSet, dictGet, List.find?]
  | cons p rest ih =>
    obtain ⟨k2, v2⟩ := p
    by_cases h : (k2 == k) = true
    · simp [dictSet, h, dictGet, List.find?]
    · simp only [dictSet, h, Bool.false_eq_true, if_false]
      simp only [dictGet, List.find?, h]
      exact ih

/-- Dict update leaves other keys untouched. -/
theorem dictGet_dictSet_other (l : List (String × Nat)) (k k2 : String) (v : Nat)
    (h : k ≠ k2) :
    dictGet (dictSet l k2 v) k = dictGet l k := by
  induction l with
  | nil =>
    have hne : (k2 == k) = false := by
      simp
      intro hcon
      exact absurd hcon.symm h
    simp [dictSet, dictGet, List.find?, hne]
  | cons p rest ih =>
    obtain ⟨k3, v3⟩ := p
    by_cases h3 : (k3 == k2) = true
    · have hk3 : k3 = k2 := by simpa using h3
      have hne : (k3 == k) = false := by
        simp [hk3]
        intro hcon
        exact absurd hcon.symm h
      have hne2 : (k2 == k) = false := by
        simp
        intro hcon
        exact absurd hcon.symm h
      simp [dictSet, h3, dictGet, List.find?, hne, hne2]
    · simp only [dictSet, h3, Bool.false_eq_true, if_false]
      by_cases h4 : (k3 == k) = true
      · simp [dictGet, List.find?, h4]
      · simp only [dictGet, List.find?, h4] at ih ⊢
        exact ih

/-- Registry presence survives a single update. -/
theorem dictGet_isSome_dictSet (l : List (String × Nat)) (k k2 : String) (v : Nat)
    (h : (dictGet l k).isSome = true) :
    (dictGet (dictSet l k2 v) k).isSome = true := by
  by_cases he : k = k2
  · rw [he, dictGet_dictSet_same]; rfl
  · rw [dictGet_dictSet_other l k k2 v he]; exact h

/-- No sequence of registry operations can make a present name absent:
the only mutating operation the code defines is `register_bridge`. -/
theorem registry_presence_preserved :
    ∀ (ops : List RegistryOp) (l : List (String × Nat)) (k : String),
      (dictGet l k).isSome = true →
      (dictGet (applyRegistryOps ops l) k).isSome = true := by
  intro ops
  induction ops with
  | nil => intro l k h; exact h
  | cons op rest ih =>
    intro l k h
    obtain ⟨n, b⟩ := op
    exact ih _ k (dictGet_isSome_dictSet l k n b h)

/-- `keyCount` distributes over append. -/
theorem keyCount_append (key : String × Nat) (l1 l2 : List (String × Nat)) :
    keyCount key (l1 ++ l2) = keyCount key l1 + keyCount key l2 := by
  simp [keyCount, List.filter_append]

/-- A second `hook_bridge` call with an already-marked key is a no-op. -/
theorem hook_bridge_marked (σ : HookState) (n : String) (i : Nat)
    (h : (n, i) ∈ σ.bridgeHooks) :
    hook_bridge σ n i = σ := by
  simp [hook_bridge, h]

/-- Across any sequence of `hook_bridge` calls, the attach block for a key
runs at most once beyond what the starting state allows, and not at all
when the key is already marked. -/
theorem hookSeq_attach_bound :
    ∀ (calls : List (String × Nat)) (σ : HookState) (key : String × Nat),
      keyCount key (hookSeq calls σ).attachLog ≤
        keyCount key σ.attachLog + (if key ∈ σ.bridgeHooks then 0 else 1) := by
  intro calls
  induction calls with
  | nil =>
    intro σ key
    exact Nat.le_add_right _ _
  | cons c rest ih =>
    intro σ key
    obtain ⟨n, i⟩ := c
    show keyCount key (hookSeq rest (hook_bridge σ n i)).attachLog ≤ _
    by_cases hmem : (n, i) ∈ σ.bridgeHooks
    · rw [hook_bridge_marked σ n i hmem]
      exact ih σ key
    · rw [hook_bridge, if_neg hmem]
      have hstep := ih
        { bridgeHooks := (n, i) :: σ.bridgeHooks
          attachLog := σ.attachLog ++ [(n, i)]
          registry := dictSet σ.registry n i } key
      by_cases hk : key = (n, i)
      · subst hk
        have hcount : keyCount (n, i) (σ.attachLog ++ [(n, i)]) =
            keyCount (n, i) σ.attachLog + 1 := by
          simp [keyCount_append, keyCount, List.filter]
        have hmem2 : (n, i) ∈ (n, i) :: σ.bridgeHooks := List.mem_cons_self _ _
        rw [hcount, if_pos hmem2] at hstep
        rw [if_neg hmem]
        omega
      · have hcount : keyCount key (σ.attachLog ++ [(n, i)]) = keyCount key σ.attachLog := by
          have : ((n, i) == key) = false := by
            simp
            intro hcon
            exact absurd hcon.symm (by simpa using hk)
          simp [keyCount_append, keyCount, List.filter, this]
        have hmemiff : (key ∈ (n, i) :: σ.bridgeHooks) ↔ (key ∈ σ.bridgeHooks) := by
          constructor
          · intro hx
            rcases List.mem_cons.mp hx with hx | hx
            · exact absurd hx hk
            · exact hx
          · exact fun hx => List.mem_cons_of_mem _ hx
        rw [hcount] at hstep
        by_cases hmk : key ∈ σ.bridgeHooks
        · rw [if_pos ((hmemiff).mpr hmk)] at hstep
          rw [if_pos hmk]
          exact hstep
        · rw [if_neg (fun hx => hmk (hmemiff.mp hx))] at hstep
          rw [if_neg hmk]
          exact hstep

/-- One `install_hooks` call either leaves the host untouched or — only
when the current factory carries no marker — layers exactly one
marker-carrying wrapper over it. -/
theorem install_hooks_host_cases (b : Bool) (h : Host) :
    (install_hooks b h).2 = h ∨
      (hostMarker h = false ∧
        (install_hooks b h).2 =
          { h with start := some { hookedMarker := true, wrapDepth := wrapCount h + 1 } }) := by
  cases b with
  | true => exact Or.inl rfl
  | false =>
    cases himp : h.importable with
    | false => simp [install_hooks, himp]
    | true =>
      cases hs : h.start with
      | none => simp [install_hooks, himp, hs]
      | some f =>
        cases hf : f.hookedMarker with
        | true => simp [install_hooks, himp, hs, hf]
        | false =>
          right
          constructor
          · simp [hostMarker, hs, hf]
          · simp [install_hooks, himp, hs, hf, wrapCount]

/-- When the factory already carries the marker, a call never touches the
host. -/
theorem install_hooks_marker_noop (b : Bool) (h : Host) (hm : hostMarker h = true) :
    (install_hooks b h).2 = h := by
  rcases install_hooks_host_cases b h with hc | ⟨hm2, _⟩
  · exact hc
  · rw [hm] at hm2
    cases hm2

/-- A marker-carrying host is a fixed point of any call sequence. -/
theorem installSeq_fixed_of_marker :
    ∀ (calls : List Bool) (h : Host), hostMarker h = true → installSeq calls h = h := by
  intro calls
  induction calls with
  | nil => intro h _; rfl
  | cons b rest ih =>
    intro h hm
    show installSeq rest (install_hooks b h).2 = h
    rw [install_hooks_marker_noop b h hm]
    exact ih h hm

/-- Across any call sequence the factory gains at most one wrapper. -/
theorem installSeq_wrap_bound :
    ∀ (calls : List Bool) (h : Host), wrapCount (installSeq calls h) ≤ wrapCount h + 1 := by
  intro calls
  induction calls with
  | nil => intro h; exact Nat.le_succ _
  | cons b rest ih =>
    intro h
    show wrapCount (installSeq rest (install_hooks b h).2) ≤ wrapCount h + 1
    rcases install_hooks_host_cases b h with hc | ⟨_, hc⟩
    · rw [hc]; exact ih h
    · rw [hc]
      have hm2 : hostMarker
          { h with start := some { hookedMarker := true, wrapDepth := wrapCount h + 1 } } = true := by
        simp [hostMarker]
      rw [installSeq_fixed_of_marker rest _ hm2]
      simp [wrapCount]

/-! ## Claim theorems -/

/-- Claim C1, counterexample: the claim says a freshly constructed
`LogEvent`/`ServerExitEvent` accepts the assignment `event.cancelled = True`.
In the code both classes are `@dataclass(frozen=True, slots=True)` with no
`cancelled` field, so that assignment raises `FrozenInstanceError` instead
of succeeding, and `cancelled` is not among the declared fields. -/
theorem event_cancelled_assignment_raises :
    dcSetattr logEventDesc "cancelled" = .raised "FrozenInstanceError" ∧
    dcSetattr serverExitEventDesc "cancelled" = .raised "FrozenInstanceError" ∧
    ("cancelled" ∈ logEventDesc.fields) = False ∧
    ("cancelled" ∈ serverExitEventDesc.fields) = False := by
  refine ⟨rfl, rfl, ?_, ?_⟩ <;> simp [logEventDesc, serverExitEventDesc]

/-- Claim C1, amended: `LogEvent` and `ServerExitEvent` are fully immutable
value objects — every attribute assignment raises, `cancelled` included;
a fresh event reads as not cancelled through
`getattr(event, "cancelled", False)` because the attribute does not exist;
the one mutable `cancelled` boolean (default false, settable to true)
lives only on the separate `Cancellable` class, which these events do not
extend. -/
theorem events_fully_immutable (attr : String) (v : Bool) (c : Cancellable) :
    dcSetattr logEventDesc attr = .raised "FrozenInstanceError" ∧
    dcSetattr serverExitEventDesc attr = .raised "FrozenInstanceError" ∧
    getattrCancelled logEventDesc v = false ∧
    getattrCancelled serverExitEventDesc v = false ∧
    Cancellable.init.cancelled = false ∧
    (Cancellable.cancel c).cancelled = true := by
  refine ⟨rfl, rfl, ?_, ?_, rfl, rfl⟩ <;>
    simp [getattrCancelled, logEventDesc, serverExitEventDesc]

/-- Claim C5, counterexample: the claim says that invoking
`run_on_ui_thread` before the Qt application exists raises a "no UI
context" error without executing the callable.  In the code
`is_ui_thread` returns `True` when `QCoreApplication.instance()` is `None`,
so the call executes the callable inline and returns its value — here the
callable returning `7` is executed and `.ok (.direct 7)` is returned, with
`wait` either way. -/
theorem run_on_ui_thread_no_app_counterexample :
    run_on_ui_thread { appExists := false, currentIsAppThread := false } true (.ok 7) =
      .ok (.direct 7) ∧
    run_on_ui_thread { appExists := false, currentIsAppThread := false } false (.ok 7) =
      .ok (.direct 7) := ⟨rfl, rfl⟩

/-- Claim C5, amended: invoking `run_on_ui_thread` before the Qt
application exists does not raise: `is_ui_thread` treats the no-application
case as being on the UI thread, so the supplied callable is executed
immediately inline and its value (or exception) is delivered directly; the
`RuntimeError("Qt application is not initialized yet.")` of `_get_invoker`
is unreachable on this path. -/
theorem run_on_ui_thread_no_app_runs_inline (t wait : Bool) (fv : PyResult Nat) :
    run_on_ui_thread { appExists := false, currentIsAppThread := t } wait fv =
      fv.map Outcome.direct := by
  simp [run_on_ui_thread, is_ui_thread]

/-- Claim C8: session registration is last-write-wins and total —
`register_bridge(name, h1)` followed by `register_bridge(name, h2)` leaves
`get_bridge(name) = h2`; both calls are plain dict updates with no failure
path, modelled as total functions. -/
theorem register_bridge_last_write_wins (s : List (String × Nat)) (n : String)
    (h1 h2 : Nat) :
    get_bridge (register_bridge (register_bridge s n h1) n h2) n = some h2 := by
  simp [get_bridge, register_bridge, dictGet_dictSet_same]

/-- Claim C9, counterexample: the claim says the registry surface exposes a
`remove(name)` after which `get(name)` reports the handle absent.  The code
defines exactly one mutating registry operation, `register_bridge`
(`RegistryOp` enumerates them all), and no sequence of available operations
can ever make a registered name absent again. -/
theorem registry_no_remove_counterexample :
    ¬ ∃ ops : List RegistryOp,
        dictGet (applyRegistryOps ops (register_bridge [] "s1" 7)) "s1" = none := by
  rintro ⟨ops, hnone⟩
  have hsome : (dictGet (register_bridge [] "s1" 7) "s1").isSome = true := by
    rw [register_bridge, dictGet_dictSet_same]
    rfl
  have h2 := registry_presence_preserved ops (register_bridge [] "s1" 7) "s1" hsome
  rw [hnone] at h2
  cases h2

/-- Claim C9, amended: the collaborator-facing registry surface consists of
`register_bridge` and `get_bridge` only; there is no remove operation, so a
name once present stays present under every sequence of registry
operations, while registering a different name leaves it untouched. -/
theorem registry_register_get_only :
    (∀ (ops : List RegistryOp) (l : List (String × Nat)) (k : String),
      (dictGet l k).isSome = true →
      (dictGet (applyRegistryOps ops l) k).isSome = true) ∧
    (∀ (l : List (String × Nat)) (k k2 : String) (v : Nat),
      k ≠ k2 → get_bridge (register_bridge l k2 v) k = get_bridge l k) := by
  constructor
  · exact registry_presence_preserved
  · intro l k k2 v h
    exact dictGet_dictSet_other l k k2 v h

/-- Claim C9, amended, witness at concrete inputs: after registering `s1`
and then `s2`, `s1` is still present, and registering `s2` did not change
what `get_bridge "s1"` returns. -/
theorem registry_register_get_only_witness :
    (dictGet (applyRegistryOps [.register "s2" 9] (register_bridge [] "s1" 7)) "s1").isSome
        = true ∧
    get_bridge (register_bridge (register_bridge [] "s1" 7) "s2" 9) "s1" =
      get_bridge (register_bridge [] "s1" 7) "s1" := by
  constructor
  · exact registry_register_get_only.1 [.register "s2" 9] (register_bridge [] "s1" 7) "s1"
      (by rw [register_bridge, dictGet_dictSet_same]; rfl)
  · exact registry_register_get_only.2 (register_bridge [] "s1" 7) "s1" "s2" 9
      (by decide)

/-- Claim C10: a `run_on_ui_thread` call made on the UI thread executes the
callable immediately and returns its value directly even when
`wait = False`: the result is `fv.map Outcome.direct`, so no `Future` is
created (`.future` never appears) and an exception raised by the callable
propagates synchronously to the caller. -/
theorem run_on_ui_thread_ui_thread_direct (q : QtState) (wait : Bool)
    (fv : PyResult Nat) (h : is_ui_thread q = true) :
    run_on_ui_thread q wait fv = fv.map Outcome.direct := by
  simp [run_on_ui_thread, h]

/-- Claim C10, witness: on the UI thread with `wait = False`, a returning
callable yields its value directly and a raising callable propagates. -/
theorem run_on_ui_thread_ui_thread_direct_witness :
    run_on_ui_thread { appExists := true, currentIsAppThread := true } false (.ok 3) =
      .ok (.direct 3) ∧
    run_on_ui_thread { appExists := true, currentIsAppThread := true } false
        (.raised "boom") = .raised "boom" := by
  constructor
  · exact run_on_ui_thread_ui_thread_direct _ false (.ok 3) rfl
  · exact run_on_ui_thread_ui_thread_direct _ false (.raised "boom") rfl

/-- Claim C2: within one `emit` call, whenever
`getattr(event, "cancelled", False)` is true at the point the next handler
of the sorted snapshot would be dispatched, the loop returns: that handler
and every remaining one produce no action, neither inline nor submitted
(first conjunct, for every continuation state of the loop).  Concretely, in
the spec scenario where handler 1 cancels the event, handler 2 (same emit
call, lower priority) is never invoked, while the handler subscribed to the
other event type is dispatched normally by a separate `emit` call with its
own fresh event (second and third conjuncts). -/
theorem emit_cancelled_stops_dispatch :
    (∀ (B : HandlerSem) (rs : List IRef), emitLoop B rs true = .ok []) ∧
    emit demoTable "LogEvent" demoCancelSem false = .ok [.inline (0, demoH1)] ∧
    emit demoTable "ServerExitEvent" demoCancelSem false = .ok [.inline (0, demoH3)] := by
  refine ⟨fun B rs => emitLoop_cancelled B rs, ?_, ?_⟩ <;> decide

/-- Claim C4: an exception raised by an invoked inline handler is caught
inside dispatch.  First conjunct: `emit` never propagates an exception to
its caller.  Second conjunct: the dispatch trace is identical to the trace
in which no handler raises, so every subsequent non-skipped handler is
still invoked.  Third conjunct, the spec scenario: handler 1 raises and
handler 2 (lower priority, same emit call) is still invoked after it. -/
theorem emit_handler_exception_isolated :
    (∀ (table : List (String × List HandlerRef)) (ty : String) (B : HandlerSem)
        (c0 : Bool), ∃ as, emit table ty B c0 = .ok as) ∧
    (∀ (table : List (String × List HandlerRef)) (ty : String) (B : HandlerSem)
        (c0 : Bool),
      emit table ty B c0 = emit table ty ⟨B.newCancelled, fun _ _ => false⟩ c0) ∧
    emit demoTable "LogEvent" demoRaiseSem false =
      .ok [.inline (0, demoH1), .inline (1, demoH2)] := by
  refine ⟨?_, ?_, ?_⟩
  · intro table ty B c0
    exact emitLoop_no_raise B _ c0
  · intro table ty B c0
    exact emitLoop_raise_independent B _ c0
  · decide

/-- Claim C6: hook installation is idempotent.  For every sequence of
`install_hooks` calls, each from an instance whose `_hooks_installed` flag
at call time is the corresponding list entry, the host factory ends up
wrapped at most once (first conjunct).  Any call finding the
`__mcsl2_api_hooked__` marker on the factory — in particular every call
made after the factory is wrapped — leaves the factory unchanged, and so
does every longer sequence (second and third conjuncts).  A repeat call on
an instance that already installed changes nothing at all (fourth
conjunct). -/
theorem install_hooks_idempotent :
    (∀ (calls : List Bool) (h : Host), wrapCount (installSeq calls h) ≤ wrapCount h + 1) ∧
    (∀ (b : Bool) (h : Host), hostMarker h = true → (install_hooks b h).2 = h) ∧
    (∀ (calls : List Bool) (h : Host), hostMarker h = true → installSeq calls h = h) ∧
    (∀ h : Host, install_hooks true h = (true, h)) := by
  refine ⟨installSeq_wrap_bound, install_hooks_marker_noop, installSeq_fixed_of_marker, ?_⟩
  intro h
  rfl

/-- Claim C6, witness: three installer calls against a pristine host wrap
its factory exactly once (depth bound 1), and a call sequence against an
already wrapped host leaves it unchanged. -/
theorem install_hooks_idempotent_witness :
    wrapCount (installSeq [false, false, true]
        { importable := true, start := some { hookedMarker := false, wrapDepth := 0 } }) ≤ 1 ∧
    installSeq [false, true]
        { importable := true, start := some { hookedMarker := true, wrapDepth := 1 } } =
      { importable := true, start := some { hookedMarker := true, wrapDepth := 1 } } := by
  constructor
  · exact install_hooks_idempotent.1 [false, false, true] _
  · exact install_hooks_idempotent.2.2.1 [false, true] _ rfl

/-- Claim C7: the native log/close notification channels of a given
`(session_name, handle_identity)` pair are attached at most once.  First
conjunct: a `hook_bridge` call whose key is already in `_bridge_hooks`
leaves the whole state — key set, listener connections, registry wiring —
unchanged.  Second conjunct: across any call sequence a key's attach block
runs at most once more than the starting state allows, hence (third
conjunct) starting from the pristine state every pair is attached at most
once. -/
theorem hook_bridge_idempotent :
    (∀ (σ : HookState) (n : String) (i : Nat),
      (n, i) ∈ σ.bridgeHooks → hook_bridge σ n i = σ) ∧
    (∀ (calls : List (String × Nat)) (σ : HookState) (key : String × Nat),
      keyCount key (hookSeq calls σ).attachLog ≤
        keyCount key σ.attachLog + (if key ∈ σ.bridgeHooks then 0 else 1)) ∧
    (∀ (calls : List (String × Nat)) (key : String × Nat),
      keyCount key (hookSeq calls { bridgeHooks := [], attachLog := [], registry := [] }).attachLog
        ≤ 1) := by
  refine ⟨hook_bridge_marked, hookSeq_attach_bound, ?_⟩
  intro calls key
  have h := hookSeq_attach_bound calls { bridgeHooks := [], attachLog := [], registry := [] } key
  simpa [keyCount] using h

/-- Claim C7, witness: repeating the call for the pair `("s1", 5)` attaches
its channels once — the second call leaves the state unchanged. -/
theorem hook_bridge_idempotent_witness :
    hook_bridge
        { bridgeHooks := [("s1", 5)], attachLog := [("s1", 5)], registry := [("s1", 5)] }
        "s1" 5 =
      { bridgeHooks := [("s1", 5)], attachLog := [("s1", 5)], registry := [("s1", 5)] } ∧
    keyCount ("s1", 5)
        (hookSeq [("s1", 5), ("s1", 5), ("s2", 5)]
          { bridgeHooks := [], attachLog := [], registry := [] }).attachLog ≤ 1 := by
  constructor
  · exact hook_bridge_idempotent.1 _ "s1" 5 (List.mem_singleton.mpr rfl)
  · exact hook_bridge_idempotent.2.2 [("s1", 5), ("s1", 5), ("s2", 5)] ("s1", 5)

/-- Claim C3: for two handlers subscribed to the event type of the emitted
event — handler `i` with strictly higher priority, or with equal priority
and an earlier subscription (smaller index, since `EventBus.on` appends) —
whenever handler `j` is dispatched by an `emit` call, handler `i` was
dispatched strictly earlier in that call's trace.  The trace order is the
synchronous order on the emitting thread: inline handlers are invoked at
their trace position, background ones are submitted at it. -/
theorem emit_priority_insertion_order
    (table : List (String × List HandlerRef)) (ty : String) (B : HandlerSem)
    (c0 : Bool) (as : List Action) (i j : Nat)
    (hi : i < (lookupHandlers table ty).length)
    (hj : j < (lookupHandlers table ty).length)
    (hkey :
      ((lookupHandlers table ty).get ⟨j, hj⟩).priority <
          ((lookupHandlers table ty).get ⟨i, hi⟩).priority ∨
        (((lookupHandlers table ty).get ⟨i, hi⟩).priority =
            ((lookupHandlers table ty).get ⟨j, hj⟩).priority ∧ i < j))
    (hemit : emit table ty B c0 = .ok as)
    (hdisp : actOf (j, (lookupHandlers table ty).get ⟨j, hj⟩) ∈ as) :
    actBefore (actOf (i, (lookupHandlers table ty).get ⟨i, hi⟩))
      (actOf (j, (lookupHandlers table ty).get ⟨j, hj⟩)) as := by
  unfold emit at hemit
  obtain ⟨l1, l2, hsp, hmap⟩ := emitLoop_split B _ c0 as hemit
  have ha_enum : (i, (lookupHandlers table ty).get ⟨i, hi⟩) ∈
      (lookupHandlers table ty).enum := by
    rw [List.mk_mem_enum_iff_getElem?]
    simp [List.getElem?_eq_getElem hi]
  have hperm := List.perm_insertionSort handlerLE (lookupHandlers table ty).enum
  have hsorted : List.Pairwise handlerLE (pySortDesc (lookupHandlers table ty).enum) :=
    List.sorted_insertionSort handlerLE (lookupHandlers table ty).enum
  have ha_sorted : (i, (lookupHandlers table ty).get ⟨i, hi⟩) ∈
      pySortDesc (lookupHandlers table ty).enum :=
    hperm.mem_iff.mpr ha_enum
  have hab : handlerLE (i, (lookupHandlers table ty).get ⟨i, hi⟩)
      (j, (lookupHandlers table ty).get ⟨j, hj⟩) := by
    rw [handlerLE_mk]
    rcases hkey with hk | ⟨hk, hk2⟩
    · exact Or.inl hk
    · exact Or.inr ⟨hk, Nat.le_of_lt hk2⟩
  have hba : ¬ handlerLE (j, (lookupHandlers table ty).get ⟨j, hj⟩)
      (i, (lookupHandlers table ty).get ⟨i, hi⟩) := by
    intro hcon
    rw [handlerLE_mk] at hcon
    rcases hkey with hk | ⟨hk, hk2⟩ <;> rcases hcon with hc | ⟨hc, hc2⟩ <;> omega
  have hb_l1 : (j, (lookupHandlers table ty).get ⟨j, hj⟩) ∈ l1 := by
    rw [hmap] at hdisp
    obtain ⟨x, hx_mem, hx_eq⟩ := List.mem_map.mp hdisp
    rwa [actOf_inj hx_eq] at hx_mem
  rw [hsp] at hsorted ha_sorted
  obtain ⟨p, q, hpq, hp, hq⟩ := pairwise_before hsorted ha_sorted hb_l1 hab hba
  subst hmap
  rw [List.get_eq_getElem] at hp hq
  refine ⟨⟨p.1, ?_⟩, ⟨q.1, ?_⟩, hpq, ?_, ?_⟩
  · rw [List.length_map]; exact p.isLt
  · rw [List.length_map]; exact q.isLt
  · rw [List.get_eq_getElem, List.getElem_map]
    exact congrArg actOf hp
  · rw [List.get_eq_getElem, List.getElem_map]
    exact congrArg actOf hq

/-- Claim C3, witness: in the spec scenario (handler 1 priority 10, handler
2 priority 1, both inline, nobody cancels) handler 1 is dispatched before
handler 2 in the trace of `emit`. -/
theorem emit_priority_insertion_order_witness :
    actBefore (Action.inline (0, demoH1)) (Action.inline (1, demoH2))
      [Action.inline (0, demoH1), Action.inline (1, demoH2)] := by
  have h := emit_priority_insertion_order demoTable "LogEvent" demoPlainSem false
    [Action.inline (0, demoH1), Action.inline (1, demoH2)] 0 1
    (by decide) (by decide) (by decide) (by decide) (by decide)
  exact h

end MCSL2
